import Mathlib

/-!
Verification of the `fetcher` package (a generic Redis-backed batch fetcher)
against its natural-language specification.

The development shallowly embeds the Go source:

* `Transcoder`    — the `Transcoder[T]` interface (`part_000`); Go's
  `(value, error)` return pairs become `T × Option GoError`.
* `defaultTranscoder` — the built-in JSON transcoder (`part_000`), parametrised
  by a `JsonCodec` embedding the ambient `goccy/go-json` instance for `T`.
* `luaPopLoop` / `defaultExtractCommand` — the Lua LPOP loop script
  (`part_001`, lines 12–26), as state passing over a `RedisState`.
* `options`, `WithClient`, `WithTranscoder`, `WithScript`, `WithTaskSize`
  (`options.go`), `NewRedisFetcher` (`part_001`, lines 47–71) and
  `RedisFetcher.Fetch` (`part_001`, lines 76–119).

Go `nil`-able fields are embedded as `Option`; the Go slice returned by
`Fetch` is embedded as `Except GoError (List T)`, where `.ok []` is the
non-nil empty slice and `.error e` is the `nil, err` return.
-/

/-- Errors of the embedding.  `errEmptyRedisClient` is `ErrEmptyRedisClient`
from `error.go`; `decodingError` stands for any error returned by
`json.Unmarshal`; `luaError` is a server-side script failure (for example
`LPOP` invoked with a `nil` key when `KEYS[1]` is absent); `infraError`
stands for connectivity or cancellation failures surfaced by `Script.Run`. -/
inductive GoError where
  | errEmptyRedisClient : GoError
  | decodingError : GoError
  | luaError : GoError
  | infraError : GoError
deriving DecidableEq

/-- Embedding of `ErrEmptyRedisClient` from `error.go` line 7. -/
def ErrEmptyRedisClient : GoError := GoError.errEmptyRedisClient

/-- Dynamic values returned by a Redis script run, embedding the Go
`interface{}` result of `Script.Run(...).Result()`: RESP arrays arrive as
`[]interface{}` (`arr`), bulk strings as `string` (`str`), integers as
`int64` (`int`), and absent replies as `nil` (`nil`). -/
inductive RVal where
  | str : String → RVal
  | int : Int → RVal
  | arr : List RVal → RVal
  | nil : RVal

/-- State of the Redis server: each key names a list of stored strings.
A missing key and an empty list are indistinguishable, exactly as for
Redis lists (a list key is removed once empty). -/
structure RedisState where
  store : String → List String

/-- Replacement of one key's list, used to embed the destructive `LPOP`
calls performed by the extraction script. -/
def RedisState.setList (st : RedisState) (key : String) (l : List String) : RedisState :=
  ⟨fun k => if k = key then l else st.store k⟩

/-- Embedding of the `Transcoder[T]` interface from `part_000`: both methods
return a Go `(value, error)` pair. -/
structure Transcoder (T : Type) where
  Encode : T → String × Option GoError
  Decode : String → T × Option GoError

/-- Embedding of `redis.UniversalClient`: an opaque connection handle. -/
structure RedisClient where
  id : Nat
deriving DecidableEq

/-- Embedding of a `*redis.Script`: its observable behaviour is the effect of
`Run(ctx, rdb, keys, args...)` on the server state, returning either a reply
value or an error together with the successor state. -/
structure Script where
  run : RedisState → List String → Int → Except GoError RVal × RedisState

/-- Embedding of the Lua loop body of `defaultExtractCommand`
(`part_001` lines 16–24): `for i = 1, max_tasks do` pops the head of the
list with `LPOP`, stopping early when the list is empty.  The result is the
pair of the popped elements in pop order and the remaining list. -/
def luaPopLoop : List String → Nat → List String × List String
  | q, 0 => ([], q)
  | [], _ + 1 => ([], [])
  | task :: rest, n + 1 =>
    let p := luaPopLoop rest n
    (task :: p.1, p.2)

/-- Embedding of `defaultExtractCommand` (`part_001` lines 12–26).  The Lua
script reads `KEYS[1]` only; when the keys array is empty, `KEYS[1]` is `nil`
and the first `redis.call('LPOP', nil)` raises a script error — unless
`max_tasks` is not positive, in which case the loop body never runs and the
empty table is returned.  `tonumber(ARGV[1])` of the integer argument is the
integer itself, and `for i = 1, m` iterates `m.toNat` times. -/
def defaultExtractCommand : Script where
  run st keys maxTasks :=
    match keys with
    | [] =>
      if maxTasks.toNat = 0 then (Except.ok (RVal.arr []), st)
      else (Except.error GoError.luaError, st)
    | key :: _ =>
      (Except.ok (RVal.arr (((luaPopLoop (st.store key) maxTasks.toNat).1).map RVal.str)),
       st.setList key (luaPopLoop (st.store key) maxTasks.toNat).2)

/-- Embedding of `defaultTaskSize` (`part_001` line 30). -/
def defaultTaskSize : Int := 1000

/-- Embedding of the `RedisFetcher[T]` struct (`part_001` lines 36–41) as it
stands during option application, before `NewRedisFetcher` validates it:
the Go zero value leaves the interface and pointer fields `nil` (`none`)
and `size` at `0`. -/
structure RedisFetcherConfig (T : Type) where
  transcoder : Option (Transcoder T)
  rdb : Option RedisClient
  extractCommand : Option Script
  size : Int

/-- Zero value `&RedisFetcher[T]\x7b\x7d` allocated at the start of
`NewRedisFetcher` (`part_001` line 48). -/
def emptyFetcherConfig (T : Type) : RedisFetcherConfig T :=
  { transcoder := none, rdb := none, extractCommand := none, size := 0 }

/-- Embedding of the `options[T]` functional-option type (`options.go`). -/
def options (T : Type) := RedisFetcherConfig T → RedisFetcherConfig T

/-- Embedding of `WithClient` (`options.go` lines 12–16). -/
def WithClient {T : Type} (rdb : RedisClient) : options T :=
  fun r => { r with rdb := some rdb }

/-- Embedding of `WithTranscoder` (`options.go` lines 22–26). -/
def WithTranscoder {T : Type} (t : Transcoder T) : options T :=
  fun r => { r with transcoder := some t }

/-- Embedding of `WithScript` (`options.go` lines 32–36). -/
def WithScript {T : Type} (src : Script) : options T :=
  fun r => { r with extractCommand := some src }

/-- Embedding of `WithTaskSize` (`options.go` lines 42–46). -/
def WithTaskSize {T : Type} (size : Int) : options T :=
  fun r => { r with size := size }

/-- Application of the option loop `for _, opt := range opts` of
`NewRedisFetcher` (`part_001` lines 50–52) to the zero-valued struct. -/
def applyOptions {T : Type} (opts : List (options T)) : RedisFetcherConfig T :=
  opts.foldl (fun fetcher opt => opt fetcher) (emptyFetcherConfig T)

/-- Embedding of the ambient JSON library (`goccy/go-json`) at payload type
`T`: `marshal` is `json.Marshal` returning the encoded string and an error;
`unmarshal s v` is `json.Unmarshal([]byte(s), &v)`, returning the value left
in the unmarshal target (which started as `v`) together with the error. -/
structure JsonCodec (T : Type) where
  marshal : T → String × Option GoError
  unmarshal : String → T → T × Option GoError

/-- Embedding of `defaultTranscoder[T]` (`part_000` lines 26–53) over a
`JsonCodec` for `T`.  `Encode` forwards `json.Marshal`; `Decode` declares
`var entry T` (the zero value, `default`), runs `json.Unmarshal` on it and
returns the resulting target value in both the error and the success
branch, exactly as the Go method does. -/
def defaultTranscoder {T : Type} [Inhabited T] (c : JsonCodec T) : Transcoder T where
  Encode src := c.marshal src
  Decode src :=
    match c.unmarshal src (default : T) with
    | (entry, some err) => (entry, some err)
    | (entry, none) => (entry, none)

/-- Embedding of a fully-constructed `RedisFetcher[T]`: after
`NewRedisFetcher` succeeds, every field is populated. -/
structure RedisFetcher (T : Type) where
  transcoder : Transcoder T
  rdb : RedisClient
  extractCommand : Script
  size : Int

/-- Embedding of `NewRedisFetcher` (`part_001` lines 47–71): apply the
options to the zero value, fail with `ErrEmptyRedisClient` when no client
was installed, and fill each remaining `nil` (or non-positive `size`) field
with its default. -/
def NewRedisFetcher {T : Type} [Inhabited T] (c : JsonCodec T) (opts : List (options T)) :
    Except GoError (RedisFetcher T) :=
  let fetcher := applyOptions opts
  match fetcher.rdb with
  | none => Except.error ErrEmptyRedisClient
  | some rdb =>
    Except.ok
      { transcoder :=
          match fetcher.transcoder with
          | none => defaultTranscoder c
          | some t => t
        rdb := rdb
        extractCommand :=
          match fetcher.extractCommand with
          | none => defaultExtractCommand
          | some sc => sc
        size := if fetcher.size ≤ 0 then defaultTaskSize else fetcher.size }

/-- Embedding of the decode loop of `Fetch` (`part_001` lines 98–114): walk
the result slice; an element that is not a string is skipped, an element
whose `Transcoder.Decode` reports an error is skipped, and every
successfully decoded value is appended to the accumulator `tasks`. -/
def decodeLoop {T : Type} (tr : Transcoder T) : List RVal → List T → List T
  | [], tasks => tasks
  | task :: rest, tasks =>
    match task with
    | RVal.str value =>
      match tr.Decode value with
      | (res, none) => decodeLoop tr rest (tasks ++ [res])
      | (_, some _) => decodeLoop tr rest tasks
    | _ => decodeLoop tr rest tasks

/-- Embedding of the result handling of `Fetch` (`part_001` lines 90–114):
`tasks := make([]T, 0)` starts empty, and the decode loop runs only when
the reply is a `[]interface\x7b\x7d` with positive length. -/
def fetchTasks {T : Type} (tr : Transcoder T) (result : RVal) : List T :=
  match result with
  | RVal.arr results =>
    if results.length > 0 then decodeLoop tr results [] else []
  | _ => []

/-- Embedding of `RedisFetcher.Fetch` (`part_001` lines 76–119): run the
extraction script with the configured keys and batch size, propagate a run
error verbatim (`return nil, err`), and otherwise decode the reply. -/
def RedisFetcher.Fetch {T : Type} (f : RedisFetcher T) (st : RedisState)
    (keys : List String) : Except GoError (List T) × RedisState :=
  match f.extractCommand.run st keys f.size with
  | (Except.error err, st') => (Except.error err, st')
  | (Except.ok result, st') => (Except.ok (fetchTasks f.transcoder result), st')

/-- Contribution of one reply element to the decode loop of `Fetch`: a
string that decodes successfully yields its value, anything else yields
nothing. -/
def decodeOk {T : Type} (tr : Transcoder T) (r : RVal) : Option T :=
  match r with
  | RVal.str value =>
    match tr.Decode value with
    | (res, none) => some res
    | (_, some _) => none
  | _ => none

/-- Values among `raws` that the transcoder decodes successfully, in the
order the raw strings appear. -/
def decodedValues {T : Type} (tr : Transcoder T) (raws : List String) : List T :=
  raws.filterMap (fun s =>
    match tr.Decode s with
    | (res, none) => some res
    | (_, some _) => none)

/-- Fixture transcoder for concrete witnesses: every string except `"bad"`
decodes to itself. -/
def fixtureTranscoder : Transcoder String where
  Encode s := (s, none)
  Decode s := if s = "bad" then ("", some GoError.decodingError) else (s, none)

/-- Fixture JSON codec for concrete witnesses of construction theorems. -/
def fixtureCodec : JsonCodec String where
  marshal s := (s, none)
  unmarshal s _ := (s, none)

/-- Fixture client handle for concrete witnesses. -/
def fixtureClient : RedisClient := ⟨0⟩

/-- Fixture fetcher with the default extraction script and batch size 5. -/
def fixtureFetcher : RedisFetcher String where
  transcoder := fixtureTranscoder
  rdb := fixtureClient
  extractCommand := defaultExtractCommand
  size := 5

/-- Fixture server state: `"q1"` holds three entries (one undecodable),
`"q2"` holds one entry, every other key is absent. -/
def fixtureState : RedisState :=
  ⟨fun k => if k = "q1" then ["a", "bad", "b"] else if k = "q2" then ["c"] else []⟩

/-- Fetcher produced by `NewRedisFetcher fixtureCodec` when only a client
(and a non-positive task size) is supplied: every other field is defaulted. -/
def fixtureDefaultedFetcher : RedisFetcher String where
  transcoder := defaultTranscoder fixtureCodec
  rdb := fixtureClient
  extractCommand := defaultExtractCommand
  size := 1000

/-- Fixture fetcher as constructed by `NewRedisFetcher` from a client, the
fixture transcoder and task size 2. -/
def fixtureSizedFetcher : RedisFetcher String where
  transcoder := fixtureTranscoder
  rdb := fixtureClient
  extractCommand := defaultExtractCommand
  size := 2

/-- Fixture script whose reply is an array mixing strings, an integer and a
nil, used to witness the shape tolerance of `Fetch`. -/
def mixedScript : Script where
  run st _ _ :=
    (Except.ok (RVal.arr [RVal.str "a", RVal.int 7, RVal.str "bad", RVal.nil]), st)

/-- Fixture fetcher wired to `mixedScript`. -/
def mixedFetcher : RedisFetcher String where
  transcoder := fixtureTranscoder
  rdb := fixtureClient
  extractCommand := mixedScript
  size := 3

/-- Lower-case hexadecimal digit characters, as used by the Go JSON
encoder (`hex = "0123456789abcdef"`); positions 0–9 double as the decimal
digit characters used when formatting integers. -/
def hexChar : Nat → Char
  | 0 => '0'
  | 1 => '1'
  | 2 => '2'
  | 3 => '3'
  | 4 => '4'
  | 5 => '5'
  | 6 => '6'
  | 7 => '7'
  | 8 => '8'
  | 9 => '9'
  | 10 => 'a'
  | 11 => 'b'
  | 12 => 'c'
  | 13 => 'd'
  | 14 => 'e'
  | _ => 'f'

/-- Numeric value of a hexadecimal digit character; the JSON string decoder
accepts both lower and upper case. -/
def hexVal? (c : Char) : Option Nat :=
  if 48 ≤ c.toNat ∧ c.toNat ≤ 57 then some (c.toNat - 48)
  else if 97 ≤ c.toNat ∧ c.toNat ≤ 102 then some (c.toNat - 87)
  else if 65 ≤ c.toNat ∧ c.toNat ≤ 70 then some (c.toNat - 55)
  else none

/-- Decimal digit characters of `n`, most significant first, computed with
explicit fuel so that the definition is structurally recursive (the fuel
`n + 1` always suffices since `n / 10 < n`). -/
def natCharsAux : Nat → Nat → List Char
  | 0, _ => []
  | fuel + 1, n =>
    if n < 10 then [hexChar n]
    else natCharsAux fuel (n / 10) ++ [hexChar (n % 10)]

/-- Decimal representation of a natural number, `"0"` included. -/
def natChars (n : Nat) : List Char := natCharsAux (n + 1) n

/-- Decimal representation of an integer, as produced by Go's
`strconv.AppendInt` when the JSON encoder formats an `int` field. -/
def intChars (i : Int) : List Char :=
  if i < 0 then '-' :: natChars (-i).toNat else natChars i.toNat

/-- Value of a most-significant-first digit-character list. -/
def digitsVal (ds : List Char) : Nat :=
  ds.foldl (fun a c => 10 * a + (c.toNat - 48)) 0

/-- Greedy split of the longest leading run of decimal digit characters. -/
def takeDigits : List Char → List Char × List Char
  | [] => ([], [])
  | c :: rest =>
    if c.isDigit then
      let p := takeDigits rest
      (c :: p.1, p.2)
    else ([], c :: rest)

/-- Parse of a natural number literal: at least one digit, greedily. -/
def parseNatChars (cs : List Char) : Option (Nat × List Char) :=
  let p := takeDigits cs
  if p.1 = [] then none else some (digitsVal p.1, p.2)

/-- Parse of an integer literal with optional leading minus sign. -/
def parseIntChars (cs : List Char) : Option (Int × List Char) :=
  match cs with
  | [] => none
  | c :: rest =>
    if c = '-' then (parseNatChars rest).map (fun p => (-(p.1 : Int), p.2))
    else (parseNatChars (c :: rest)).map (fun p => ((p.1 : Int), p.2))

/-- JSON string escaping of one character, following the Go JSON encoder
with its default HTML escaping: quote and backslash get a backslash escape,
newline, carriage return and tab get their short escapes, the remaining
control characters as well as the HTML-sensitive characters and the
line/paragraph separators U+2028/U+2029 are written as a
`\u`-plus-four-lower-hex-digits sequence, and every other character stands
for itself. -/
def escapeChar (ch : Char) : List Char :=
  if ch = '"' then ['\\', '"']
  else if ch = '\\' then ['\\', '\\']
  else if ch = '\n' then ['\\', 'n']
  else if ch = '\r' then ['\\', 'r']
  else if ch = '\t' then ['\\', 't']
  else if ch.toNat < 32 ∨ ch = '<' ∨ ch = '>' ∨ ch = '&' ∨
      ch.toNat = 8232 ∨ ch.toNat = 8233 then
    ['\\', 'u', hexChar (ch.toNat / 4096 % 16), hexChar (ch.toNat / 256 % 16),
     hexChar (ch.toNat / 16 % 16), hexChar (ch.toNat % 16)]
  else [ch]

/-- JSON string escaping of a character sequence. -/
def escBody : List Char → List Char
  | [] => []
  | c :: rest => escapeChar c ++ escBody rest

/-- Character denoted by a `\uXXXX` escape: an unpaired surrogate code
point is replaced by U+FFFD, as the Go decoder does. -/
def uniChar (n : Nat) : Char :=
  if 55296 ≤ n ∧ n < 57344 then Char.ofNat 65533 else Char.ofNat n

/-- Prepend one decoded character to a string-body parse result. -/
def consChar (c : Char) (p : Option (List Char × List Char)) :
    Option (List Char × List Char) :=
  p.map (fun q => (c :: q.1, q.2))

/-- Parse of a JSON string body (after the opening quote) up to and
including the closing quote, returning the decoded characters and the
remaining input.  The fuel argument makes the recursion structural; each
step consumes at least one input character, so fuel exceeding the input
length never runs out. -/
def parseStrAux : Nat → List Char → Option (List Char × List Char)
  | 0, _ => none
  | _ + 1, [] => none
  | fuel + 1, ch :: rest =>
    if ch = '"' then some ([], rest)
    else if ch = '\\' then
      match rest with
      | [] => none
      | e :: r =>
        if e = '"' ∨ e = '\\' ∨ e = '/' then consChar e (parseStrAux fuel r)
        else if e = 'n' then consChar '\n' (parseStrAux fuel r)
        else if e = 'r' then consChar '\r' (parseStrAux fuel r)
        else if e = 't' then consChar '\t' (parseStrAux fuel r)
        else if e = 'b' then consChar (Char.ofNat 8) (parseStrAux fuel r)
        else if e = 'f' then consChar (Char.ofNat 12) (parseStrAux fuel r)
        else if e = 'u' then
          match r with
          | h1 :: h2 :: h3 :: h4 :: r2 =>
            match hexVal? h1, hexVal? h2, hexVal? h3, hexVal? h4 with
            | some a, some b, some c, some d =>
              consChar (uniChar (((a * 16 + b) * 16 + c) * 16 + d))
                (parseStrAux fuel r2)
            | _, _, _, _ => none
          | _ => none
        else none
    else consChar ch (parseStrAux fuel rest)

/-- Consumption of an expected literal character sequence. -/
def expectChars : List Char → List Char → Option (List Char)
  | [], cs => some cs
  | _ :: _, [] => none
  | l :: lit, c :: cs => if c = l then expectChars lit cs else none

/-- Embedding of the `TestTask` payload struct of `rdb_test.go`
(`ID int` with JSON name `id`, `Data string` with JSON name `data`), the
payload type the repository instantiates the fetcher at. -/
structure TestTask where
  id : Int
  data : String
deriving DecidableEq

/-- Go zero value of `TestTask`. -/
instance : Inhabited TestTask := ⟨⟨0, ""⟩⟩

/-- Leading literal of the canonical `TestTask` JSON object. -/
def jsonLit1 : List Char := "\x7b\"id\":".data

/-- Literal between the `id` value and the `data` string. -/
def jsonLit2 : List Char := ",\"data\":\"".data

/-- Tail of `jsonLit2` after its leading comma. -/
def jsonLit2Tail : List Char := "\"data\":\"".data

/-- Closing literal after the `data` string's quote. -/
def jsonRBrace : List Char := "\x7d".data

/-- Canonical JSON encoding of a `TestTask`, as `json.Marshal` produces it:
`\x7b"id":<int>,"data":"<escaped>"\x7d` with no interior whitespace. -/
def marshalTestTask (v : TestTask) : String :=
  String.mk (jsonLit1 ++ intChars v.id ++ jsonLit2 ++ escBody v.data.data ++
    ('"' :: jsonRBrace))

/-- Parse of the canonical `TestTask` JSON object form. -/
def parseTestTask (cs : List Char) : Option TestTask :=
  (expectChars jsonLit1 cs).bind (fun cs1 =>
  (parseIntChars cs1).bind (fun p =>
  (expectChars jsonLit2 p.2).bind (fun cs3 =>
  (parseStrAux (cs3.length + 1) cs3).bind (fun q =>
  (expectChars jsonRBrace q.2).bind (fun cs5 =>
  if cs5 = [] then some { id := p.1, data := String.mk q.1 } else none)))))

/-- Model of the `goccy/go-json` codec at payload type `TestTask`.  It is a
partial model of the library: `marshal` produces exactly the canonical
encoding `json.Marshal` produces (and never fails, as marshalling an
`int`-and-`string` struct never fails in Go); `unmarshal` accepts the
canonical object form and reports a decoding error on every other input,
leaving the target value untouched.  The library is more lenient on
non-canonical input (whitespace, reordered or unknown fields); none of that
leniency is exercised by round-trips of marshalled values. -/
def testTaskCodec : JsonCodec TestTask where
  marshal v := (marshalTestTask v, none)
  unmarshal s entry :=
    match parseTestTask s.data with
    | some t => (t, none)
    | none => (entry, some GoError.decodingError)

/-- Concrete task exercising sign, quote, backslash, control-character and
brace escaping in the round-trip witness. -/
def witnessTask : TestTask := ⟨-42, "a\"b\\c\nd\x7be\x7d"⟩

lemma luaPopLoop_append : ∀ (n : Nat) (q : List String),
    (luaPopLoop q n).1 ++ (luaPopLoop q n).2 = q := by
  intro n
  induction n with
  | zero => intro q; simp [luaPopLoop]
  | succ n ih =>
    intro q
    cases q with
    | nil => simp [luaPopLoop]
    | cons t rest => simp [luaPopLoop, ih]

lemma luaPopLoop_length_le : ∀ (n : Nat) (q : List String),
    (luaPopLoop q n).1.length ≤ n := by
  intro n
  induction n with
  | zero => intro q; simp [luaPopLoop]
  | succ n ih =>
    intro q
    cases q with
    | nil => simp [luaPopLoop]
    | cons t rest => simpa [luaPopLoop] using ih rest

lemma luaPopLoop_nil (n : Nat) : luaPopLoop [] n = ([], []) := by
  cases n <;> rfl

lemma decodeLoop_eq_filterMap {T : Type} (tr : Transcoder T) (l : List RVal) :
    ∀ acc : List T, decodeLoop tr l acc = acc ++ l.filterMap (decodeOk tr) := by
  induction l with
  | nil => intro acc; simp [decodeLoop]
  | cons r rest ih =>
    intro acc
    cases r with
    | str value =>
      rcases h : tr.Decode value with ⟨res, err⟩
      cases err with
      | none => simp [decodeLoop, decodeOk, h, ih]
      | some e => simp [decodeLoop, decodeOk, h, ih]
    | int i => simp [decodeLoop, decodeOk, ih]
    | arr a => simp [decodeLoop, decodeOk, ih]
    | nil => simp [decodeLoop, decodeOk, ih]

lemma fetchTasks_arr {T : Type} (tr : Transcoder T) (l : List RVal) :
    fetchTasks tr (RVal.arr l) = l.filterMap (decodeOk tr) := by
  cases l with
  | nil => simp [fetchTasks]
  | cons r rest => simp [fetchTasks, decodeLoop_eq_filterMap]

lemma decodeOk_str {T : Type} (tr : Transcoder T) (s : String) :
    decodeOk tr (RVal.str s) =
      match tr.Decode s with
      | (res, none) => some res
      | (_, some _) => none := rfl

lemma fetchTasks_arr_strings {T : Type} (tr : Transcoder T) (raws : List String) :
    fetchTasks tr (RVal.arr (raws.map RVal.str)) = decodedValues tr raws := by
  rw [fetchTasks_arr, List.filterMap_map]
  rfl

lemma newRedisFetcher_size_pos {T : Type} [Inhabited T] (c : JsonCodec T)
    (opts : List (options T)) (f : RedisFetcher T)
    (h : NewRedisFetcher c opts = Except.ok f) : 0 < f.size := by
  simp only [NewRedisFetcher] at h
  cases hr : (applyOptions opts).rdb with
  | none => rw [hr] at h; cases h
  | some rdb =>
    rw [hr] at h
    cases h
    simp only
    split
    · simp [defaultTaskSize]
    · omega

/-- C1: for every Fetch call on a ready Fetcher whose extraction command
succeeds with a list of raw strings, items whose `Transcoder.Decode` fails
are discarded without producing an error, and the returned sequence is
exactly the successfully decoded items in the relative order in which the
raw strings were popped. -/
theorem fetch_discards_undecodable_items {T : Type} (f : RedisFetcher T)
    (st st' : RedisState) (keys : List String) (raws : List String)
    (hrun : f.extractCommand.run st keys f.size =
      (Except.ok (RVal.arr (raws.map RVal.str)), st')) :
    f.Fetch st keys = (Except.ok (decodedValues f.transcoder raws), st') := by
  unfold RedisFetcher.Fetch
  rw [hrun]
  exact congrArg (fun ts => (Except.ok ts, st')) (fetchTasks_arr_strings f.transcoder raws)

/-- Witness for C1: on a queue holding a malformed entry between two valid
ones, `Fetch` returns the two valid entries in order, with no error. -/
theorem fetch_discards_undecodable_items_witness :
    (fixtureFetcher.Fetch fixtureState ["q1"]).1 = Except.ok ["a", "b"] := by
  have h := fetch_discards_undecodable_items fixtureFetcher fixtureState
    (fixtureState.setList "q1" []) ["q1"] ["a", "bad", "b"] rfl
  rw [h]
  rfl

/-- C3 counterexample: with the default extraction script, a Fetch call
given the two keys `"q1"` and `"q2"` (both holding entries) returns items
from `"q1"` only and leaves the list at `"q2"` untouched, so items are not
drained from every list named in the keys argument. -/
theorem fetch_ignores_second_key_cex :
    (fixtureFetcher.Fetch fixtureState ["q1", "q2"]).1 = Except.ok ["a", "b"] ∧
    ((fixtureFetcher.Fetch fixtureState ["q1", "q2"]).2).store "q2" = ["c"] ∧
    fixtureState.store "q2" = ["c"] := by
  refine ⟨rfl, rfl, rfl⟩

/-- C3 amended: a Fetch call given one or more keys drains items only from
the first key, using the configured batch size; the remaining keys are
passed to the script but the default script ignores them, so their lists
are left untouched. -/
theorem fetch_drains_only_first_key {T : Type} (f : RedisFetcher T)
    (hcmd : f.extractCommand = defaultExtractCommand)
    (st : RedisState) (k : String) (rest : List String) :
    f.Fetch st (k :: rest) = f.Fetch st [k] ∧
    ∀ k2, k2 ≠ k → ((f.Fetch st (k :: rest)).2).store k2 = st.store k2 := by
  constructor
  · unfold RedisFetcher.Fetch
    rw [hcmd]
    rfl
  · intro k2 hk2
    unfold RedisFetcher.Fetch
    rw [hcmd]
    simp [defaultExtractCommand, RedisState.setList, hk2]

/-- Witness for C3 (amended): fetching `["q1", "q2"]` behaves exactly as
fetching `["q1"]`, and the list at `"q2"` is unchanged. -/
theorem fetch_drains_only_first_key_witness :
    fixtureFetcher.Fetch fixtureState ["q1", "q2"] =
      fixtureFetcher.Fetch fixtureState ["q1"] ∧
    ((fixtureFetcher.Fetch fixtureState ["q1", "q2"]).2).store "q2" =
      fixtureState.store "q2" := by
  have h := fetch_drains_only_first_key fixtureFetcher rfl fixtureState "q1" ["q2"]
  exact ⟨h.1, h.2 "q2" (by decide)⟩

/-- C8: fetching a key whose list is empty (or absent) yields the empty
sequence with no error, and running the default extraction script with a
non-positive `max_count` yields the empty array reply with no error and no
change to any list. -/
theorem fetch_empty_queue_and_nonpositive_max {T : Type} (f : RedisFetcher T)
    (hcmd : f.extractCommand = defaultExtractCommand)
    (st : RedisState) (k : String) (rest : List String)
    (hempty : st.store k = []) :
    (f.Fetch st (k :: rest)).1 = Except.ok [] ∧
    ∀ (m : Int), m ≤ 0 → ∀ (st2 : RedisState) (keys : List String),
      (defaultExtractCommand.run st2 keys m).1 = Except.ok (RVal.arr []) ∧
      ∀ k2, ((defaultExtractCommand.run st2 keys m).2).store k2 = st2.store k2 := by
  constructor
  · unfold RedisFetcher.Fetch
    rw [hcmd]
    simp [defaultExtractCommand, hempty, luaPopLoop_nil, fetchTasks]
  · intro m hm st2 keys
    have hz : m.toNat = 0 := by omega
    cases keys with
    | nil =>
      constructor
      · simp [defaultExtractCommand, Script.run, hz, hm]
      · intro k2; simp [defaultExtractCommand, Script.run, hz, hm]
    | cons k' ks =>
      constructor
      · simp [defaultExtractCommand, Script.run, hz, luaPopLoop]
      · intro k2
        simp only [defaultExtractCommand, Script.run, hz, luaPopLoop, RedisState.setList]
        split <;> simp_all

/-- Witness for C8: fetching the absent key `"empty"` returns the empty
sequence without error, and the default script run with `max_count = -3`
returns the empty array reply. -/
theorem fetch_empty_queue_and_nonpositive_max_witness :
    (fixtureFetcher.Fetch fixtureState ["empty"]).1 = Except.ok ([] : List String) ∧
    (defaultExtractCommand.run fixtureState ["q1"] (-3)).1 = Except.ok (RVal.arr []) := by
  have h := fetch_empty_queue_and_nonpositive_max fixtureFetcher rfl
    fixtureState "empty" [] rfl
  exact ⟨h.1, (h.2 (-3) (by decide) fixtureState ["q1"]).1⟩

lemma luaPopLoop_seq_counts (q : List String) (n1 n2 : Nat) (s : String) :
    ((luaPopLoop q n1).1).count s + ((luaPopLoop (luaPopLoop q n1).2 n2).1).count s ≤
      q.count s := by
  have h1 := luaPopLoop_append n1 q
  have h2 := luaPopLoop_append n2 (luaPopLoop q n1).2
  conv_rhs => rw [← h1, List.count_append, ← h2, List.count_append]
  omega

lemma fetchTasks_length_le {T : Type} (tr : Transcoder T) (l : List RVal) :
    (fetchTasks tr (RVal.arr l)).length ≤ l.length := by
  rw [fetchTasks_arr]
  exact List.length_filterMap_le _ _

/-- C2: on a ready Fetcher using the default extraction script, a
successful Fetch never returns more items than the configured batch size,
however many elements the backing list holds. -/
theorem fetch_respects_batch_size {T : Type} [Inhabited T] (c : JsonCodec T)
    (opts : List (options T)) (f : RedisFetcher T)
    (hnew : NewRedisFetcher c opts = Except.ok f)
    (hcmd : f.extractCommand = defaultExtractCommand)
    (st st' : RedisState) (keys : List String) (tasks : List T)
    (hfetch : f.Fetch st keys = (Except.ok tasks, st')) :
    (tasks.length : Int) ≤ f.size := by
  have hpos := newRedisFetcher_size_pos c opts f hnew
  unfold RedisFetcher.Fetch at hfetch
  rw [hcmd] at hfetch
  cases keys with
  | nil =>
    have hneg : ¬ f.size ≤ 0 := by omega
    simp [defaultExtractCommand, Script.run, hneg] at hfetch
  | cons k rest =>
    simp only [defaultExtractCommand, Script.run, Prod.mk.injEq] at hfetch
    obtain ⟨h1, -⟩ := hfetch
    injection h1 with h1
    have hlen : tasks.length ≤ f.size.toNat := by
      rw [← h1]
      calc (fetchTasks f.transcoder
              (RVal.arr ((luaPopLoop (st.store k) f.size.toNat).1.map RVal.str))).length
          ≤ ((luaPopLoop (st.store k) f.size.toNat).1.map RVal.str).length :=
            fetchTasks_length_le _ _
        _ = (luaPopLoop (st.store k) f.size.toNat).1.length := List.length_map _ _
        _ ≤ f.size.toNat := luaPopLoop_length_le _ _
    omega

/-- Witness for C2: a fetcher constructed with task size 2 over a queue of
three entries returns at most 2 items. -/
theorem fetch_respects_batch_size_witness :
    ((["a"] : List String).length : Int) ≤ fixtureSizedFetcher.size :=
  fetch_respects_batch_size fixtureCodec
    [WithClient fixtureClient, WithTranscoder fixtureTranscoder, WithTaskSize 2]
    fixtureSizedFetcher rfl rfl fixtureState (fixtureState.setList "q1" ["b"])
    ["q1"] ["a"] rfl

/-- C6: `NewRedisFetcher` fails — with the empty-client configuration
error — exactly when no client was installed by the options; with a client
it succeeds, and every field left unset (transcoder, extraction command,
batch size) is filled with its documented default (the JSON transcoder,
the built-in pop-loop script, 1000). -/
theorem newRedisFetcher_error_iff_defaults {T : Type} [Inhabited T]
    (c : JsonCodec T) (opts : List (options T)) :
    ((applyOptions opts).rdb = none →
      NewRedisFetcher c opts = Except.error ErrEmptyRedisClient) ∧
    ∀ client, (applyOptions opts).rdb = some client →
      ∃ f, NewRedisFetcher c opts = Except.ok f ∧
        f.rdb = client ∧
        ((applyOptions opts).transcoder = none → f.transcoder = defaultTranscoder c) ∧
        ((applyOptions opts).extractCommand = none →
          f.extractCommand = defaultExtractCommand) ∧
        ((applyOptions opts).size ≤ 0 → f.size = 1000) := by
  constructor
  · intro h
    simp only [NewRedisFetcher]
    rw [h]
  · intro client h
    simp only [NewRedisFetcher]
    rw [h]
    refine ⟨_, rfl, rfl, ?_, ?_, ?_⟩
    · intro ht
      show (match (applyOptions opts).transcoder with
        | none => defaultTranscoder c
        | some t => t) = defaultTranscoder c
      rw [ht]
    · intro hc
      show (match (applyOptions opts).extractCommand with
        | none => defaultExtractCommand
        | some sc => sc) = defaultExtractCommand
      rw [hc]
    · intro hs
      show (if (applyOptions opts).size ≤ 0 then defaultTaskSize
        else (applyOptions opts).size) = 1000
      rw [if_pos hs]
      rfl

/-- Witness for C6: constructing from a client alone succeeds and yields
the JSON transcoder, the built-in script and batch size 1000. -/
theorem newRedisFetcher_error_iff_defaults_witness :
    ∃ f : RedisFetcher String,
      NewRedisFetcher fixtureCodec [WithClient fixtureClient] = Except.ok f ∧
      f.rdb = fixtureClient ∧
      f.transcoder = defaultTranscoder fixtureCodec ∧
      f.extractCommand = defaultExtractCommand ∧
      f.size = 1000 := by
  obtain ⟨f, hf, hrdb, ht, hc, hs⟩ :=
    (newRedisFetcher_error_iff_defaults fixtureCodec [WithClient fixtureClient]).2
      fixtureClient rfl
  exact ⟨f, hf, hrdb, ht rfl, hc rfl, hs (by decide)⟩

/-- C7: every successfully constructed fetcher stores a strictly positive
batch size: a configured size of zero (unset) or below is replaced by the
default 1000 at construction, and the embedding of `Fetch` takes the
fetcher as an immutable value, so no later operation changes it. -/
theorem constructed_fetcher_size_positive {T : Type} [Inhabited T] (c : JsonCodec T)
    (opts : List (options T)) (f : RedisFetcher T)
    (h : NewRedisFetcher c opts = Except.ok f) : 0 < f.size :=
  newRedisFetcher_size_pos c opts f h

/-- Witness for C7: construction with a configured size of -7 yields the
default size 1000, which is positive. -/
theorem constructed_fetcher_size_positive_witness :
    NewRedisFetcher fixtureCodec [WithClient fixtureClient, WithTaskSize (-7)] =
      Except.ok fixtureDefaultedFetcher ∧ 0 < fixtureDefaultedFetcher.size :=
  ⟨by rfl, constructed_fetcher_size_positive fixtureCodec
    [WithClient fixtureClient, WithTaskSize (-7)] fixtureDefaultedFetcher (by rfl)⟩

/-- C9: two runs of the default extraction script against the same key —
the serialisation of two concurrent Fetch calls, which the atomicity of
script execution guarantees — return adjacent disjoint segments of the
stored list: no element occurrence is delivered twice. -/
theorem concurrent_fetches_disjoint (st st1 st2 : RedisState) (key : String)
    (ks1 ks2 : List String) (n1 n2 : Int) (r1 r2 : List RVal)
    (h1 : defaultExtractCommand.run st (key :: ks1) n1 = (Except.ok (RVal.arr r1), st1))
    (h2 : defaultExtractCommand.run st1 (key :: ks2) n2 = (Except.ok (RVal.arr r2), st2)) :
    ∃ p1 p2 : List String,
      r1 = p1.map RVal.str ∧ r2 = p2.map RVal.str ∧
      p1 ++ p2 ++ st2.store key = st.store key ∧
      ∀ s, p1.count s + p2.count s ≤ (st.store key).count s := by
  simp only [defaultExtractCommand, Script.run, Prod.mk.injEq, Except.ok.injEq,
    RVal.arr.injEq] at h1 h2
  obtain ⟨hv1, hs1⟩ := h1
  obtain ⟨hv2, hs2⟩ := h2
  have hst1 : st1.store key = (luaPopLoop (st.store key) n1.toNat).2 := by
    rw [← hs1]
    simp [RedisState.setList]
  have hst2 : st2.store key = (luaPopLoop (st1.store key) n2.toNat).2 := by
    rw [← hs2]
    simp [RedisState.setList]
  refine ⟨(luaPopLoop (st.store key) n1.toNat).1,
    (luaPopLoop (st1.store key) n2.toNat).1, hv1.symm, hv2.symm, ?_, ?_⟩
  · rw [hst2, List.append_assoc, luaPopLoop_append, hst1, luaPopLoop_append]
  · intro s
    rw [hst1]
    exact luaPopLoop_seq_counts (st.store key) n1.toNat n2.toNat s

/-- Witness for C9: popping 2 then 5 items from a three-element list
yields the adjacent segments of the list, with no occurrence repeated. -/
theorem concurrent_fetches_disjoint_witness :
    ∃ p1 p2 : List String,
      [RVal.str "a", RVal.str "bad"] = p1.map RVal.str ∧
      [RVal.str "b"] = p2.map RVal.str ∧
      p1 ++ p2 ++ ((fixtureState.setList "q1" ["b"]).setList "q1" []).store "q1" =
        fixtureState.store "q1" ∧
      ∀ s, p1.count s + p2.count s ≤ (fixtureState.store "q1").count s :=
  concurrent_fetches_disjoint fixtureState (fixtureState.setList "q1" ["b"])
    ((fixtureState.setList "q1" ["b"]).setList "q1" []) "q1" [] [] 2 5
    [RVal.str "a", RVal.str "bad"] [RVal.str "b"] rfl rfl

/-- C10: when the extraction command succeeds, `Fetch` never fails because
of the reply's shape: a non-array reply yields the empty sequence with no
error, and within an array reply every non-string element is silently
skipped, the output being the decoded string elements only. -/
theorem fetch_tolerates_reply_shape {T : Type} (f : RedisFetcher T)
    (st st' : RedisState) (keys : List String) (v : RVal)
    (hrun : f.extractCommand.run st keys f.size = (Except.ok v, st')) :
    (∃ ts, f.Fetch st keys = (Except.ok ts, st')) ∧
    ((∀ l, v ≠ RVal.arr l) → f.Fetch st keys = (Except.ok [], st')) ∧
    ∀ l, v = RVal.arr l →
      f.Fetch st keys = (Except.ok (l.filterMap (decodeOk f.transcoder)), st') := by
  have hfetch : f.Fetch st keys = (Except.ok (fetchTasks f.transcoder v), st') := by
    unfold RedisFetcher.Fetch
    rw [hrun]
  refine ⟨⟨fetchTasks f.transcoder v, hfetch⟩, ?_, ?_⟩
  · intro hne
    rw [hfetch]
    cases v with
    | arr l => exact absurd rfl (hne l)
    | str s => rfl
    | int i => rfl
    | nil => rfl
  · intro l hl
    subst hl
    rw [hfetch, fetchTasks_arr]

/-- Witness for C10: a reply mixing strings, an integer and a nil yields
only the decodable string elements, with no error. -/
theorem fetch_tolerates_reply_shape_witness :
    (mixedFetcher.Fetch fixtureState ["q"]).1 = Except.ok ["a"] := by
  have h := (fetch_tolerates_reply_shape mixedFetcher fixtureState fixtureState ["q"]
    (RVal.arr [RVal.str "a", RVal.int 7, RVal.str "bad", RVal.nil]) rfl).2.2
    [RVal.str "a", RVal.int 7, RVal.str "bad", RVal.nil] rfl
  rw [h]
  rfl

lemma hexVal_hexChar (h : Nat) (hh : h < 16) : hexVal? (hexChar h) = some h := by
  interval_cases h <;> decide

lemma hexChar_isDigit (d : Nat) (hd : d < 10) : (hexChar d).isDigit = true := by
  interval_cases d <;> decide

lemma hexChar_val (d : Nat) (hd : d < 10) : (hexChar d).toNat - 48 = d := by
  interval_cases d <;> decide

lemma digitsVal_append_singleton (A : List Char) (c : Char) :
    digitsVal (A ++ [c]) = 10 * digitsVal A + (c.toNat - 48) := by
  simp [digitsVal, List.foldl_append]

lemma natCharsAux_spec : ∀ (fuel n : Nat), n < fuel →
    digitsVal (natCharsAux fuel n) = n ∧ natCharsAux fuel n ≠ [] ∧
      ∀ c ∈ natCharsAux fuel n, c.isDigit = true := by
  intro fuel
  induction fuel with
  | zero => intro n h; omega
  | succ fuel ih =>
    intro n h
    by_cases h10 : n < 10
    · refine ⟨?_, by simp [natCharsAux, h10], ?_⟩
      · have := hexChar_val n h10
        simp [natCharsAux, h10, digitsVal]
        omega
      · intro c hc
        simp [natCharsAux, h10] at hc
        subst hc
        exact hexChar_isDigit n h10
    · have hdiv : n / 10 < fuel := by omega
      obtain ⟨hv, hne, hdig⟩ := ih (n / 10) hdiv
      refine ⟨?_, by simp [natCharsAux, h10], ?_⟩
      · simp only [natCharsAux, if_neg h10]
        rw [digitsVal_append_singleton, hv, hexChar_val (n % 10) (Nat.mod_lt _ (by omega))]
        omega
      · intro c hc
        simp only [natCharsAux, if_neg h10, List.mem_append, List.mem_singleton] at hc
        rcases hc with hc | hc
        · exact hdig c hc
        · subst hc
          exact hexChar_isDigit _ (Nat.mod_lt _ (by omega))

lemma natChars_spec (n : Nat) :
    digitsVal (natChars n) = n ∧ natChars n ≠ [] ∧
      ∀ c ∈ natChars n, c.isDigit = true :=
  natCharsAux_spec (n + 1) n (by omega)

lemma takeDigits_append (A : List Char) (hA : ∀ c ∈ A, c.isDigit = true)
    (b : Char) (hb : b.isDigit = false) (r : List Char) :
    takeDigits (A ++ b :: r) = (A, b :: r) := by
  induction A with
  | nil => simp [takeDigits, hb]
  | cons c cs ih =>
    have hc : c.isDigit = true := hA c (by simp)
    have ihh := ih (fun x hx => hA x (by simp [hx]))
    simp [takeDigits, hc, ihh]

lemma parseNatChars_natChars (n : Nat) (b : Char) (hb : b.isDigit = false)
    (r : List Char) : parseNatChars (natChars n ++ b :: r) = some (n, b :: r) := by
  obtain ⟨hv, hne, hdig⟩ := natChars_spec n
  simp only [parseNatChars]
  rw [takeDigits_append (natChars n) hdig b hb r]
  simp [hne, hv]

lemma parseIntChars_intChars (i : Int) (b : Char) (hb : b.isDigit = false)
    (r : List Char) :
    parseIntChars (intChars i ++ b :: r) = some (i, b :: r) := by
  by_cases hi : i < 0
  · have h1 : intChars i = '-' :: natChars (-i).toNat := by simp [intChars, hi]
    rw [h1]
    show parseIntChars ('-' :: (natChars (-i).toNat ++ b :: r)) = some (i, b :: r)
    rw [show parseIntChars ('-' :: (natChars (-i).toNat ++ b :: r)) =
      (parseNatChars (natChars (-i).toNat ++ b :: r)).map
        (fun p => (-(p.1 : Int), p.2)) from rfl]
    rw [parseNatChars_natChars _ b hb r]
    simp
    omega
  · have h1 : intChars i = natChars i.toNat := by simp [intChars, hi]
    rw [h1]
    obtain ⟨hv, hne, hdig⟩ := natChars_spec i.toNat
    obtain ⟨c, cs, hcons⟩ : ∃ c cs, natChars i.toNat = c :: cs := by
      cases hnc : natChars i.toNat with
      | nil => exact absurd hnc hne
      | cons c cs => exact ⟨c, cs, rfl⟩
    have hcdig : c.isDigit = true := hdig c (by rw [hcons]; simp)
    have hcm : ¬ c = '-' := by
      intro hceq
      rw [hceq] at hcdig
      exact absurd hcdig (by decide)
    rw [hcons]
    simp only [List.cons_append, parseIntChars, if_neg hcm]
    rw [show (c :: (cs ++ b :: r)) = (c :: cs) ++ b :: r by simp, ← hcons]
    rw [parseNatChars_natChars i.toNat b hb r]
    simp
    omega

lemma expectChars_append (lit r : List Char) : expectChars lit (lit ++ r) = some r := by
  induction lit with
  | nil => rfl
  | cons c cs ih => simp [expectChars, ih]

lemma escapeChar_ne_nil (c : Char) : escapeChar c ≠ [] := by
  unfold escapeChar
  repeat' split
  all_goals simp

lemma length_le_escBody (s : List Char) : s.length ≤ (escBody s).length := by
  induction s with
  | nil => simp [escBody]
  | cons c cs ih =>
    have h1 : 0 < (escapeChar c).length := List.length_pos.mpr (escapeChar_ne_nil c)
    simp only [escBody, List.length_append, List.length_cons]
    omega

lemma parseStrAux_escapeChar (ch : Char) (fuel : Nat) (t : List Char) :
    parseStrAux (fuel + 1) (escapeChar ch ++ t) = consChar ch (parseStrAux fuel t) := by
  by_cases h1 : ch = '"'
  · subst h1; simp [escapeChar, parseStrAux]
  by_cases h2 : ch = '\\'
  · subst h2; simp [escapeChar, parseStrAux]
  by_cases h3 : ch = '\n'
  · subst h3; simp [escapeChar, parseStrAux]
  by_cases h4 : ch = '\r'
  · subst h4; simp [escapeChar, parseStrAux]
  by_cases h5 : ch = '\t'
  · subst h5; simp [escapeChar, parseStrAux]
  by_cases hP : ch.toNat < 32 ∨ ch = '<' ∨ ch = '>' ∨ ch = '&' ∨
      ch.toNat = 8232 ∨ ch.toNat = 8233
  · have hesc : escapeChar ch = ['\\', 'u', hexChar (ch.toNat / 4096 % 16),
        hexChar (ch.toNat / 256 % 16), hexChar (ch.toNat / 16 % 16),
        hexChar (ch.toNat % 16)] := by
      simp [escapeChar, h1, h2, h3, h4, h5, hP]
    have htn : ch.toNat < 32 ∨ ch.toNat = 60 ∨ ch.toNat = 62 ∨ ch.toNat = 38 ∨
        ch.toNat = 8232 ∨ ch.toNat = 8233 := by
      rcases hP with h | h | h | h | h | h
      · exact Or.inl h
      · subst h; exact Or.inr (Or.inl rfl)
      · subst h; exact Or.inr (Or.inr (Or.inl rfl))
      · subst h; exact Or.inr (Or.inr (Or.inr (Or.inl rfl)))
      · exact Or.inr (Or.inr (Or.inr (Or.inr (Or.inl h))))
      · exact Or.inr (Or.inr (Or.inr (Or.inr (Or.inr h))))
    rw [hesc]
    simp only [List.cons_append, List.nil_append]
    rw [show parseStrAux (fuel + 1)
        ('\\' :: 'u' :: hexChar (ch.toNat / 4096 % 16) :: hexChar (ch.toNat / 256 % 16) ::
          hexChar (ch.toNat / 16 % 16) :: hexChar (ch.toNat % 16) :: t) =
      (match hexVal? (hexChar (ch.toNat / 4096 % 16)), hexVal? (hexChar (ch.toNat / 256 % 16)),
          hexVal? (hexChar (ch.toNat / 16 % 16)), hexVal? (hexChar (ch.toNat % 16)) with
        | some a, some b, some c, some d =>
          consChar (uniChar (((a * 16 + b) * 16 + c) * 16 + d)) (parseStrAux fuel t)
        | _, _, _, _ => none) from rfl]
    rw [hexVal_hexChar _ (Nat.mod_lt _ (by omega)), hexVal_hexChar _ (Nat.mod_lt _ (by omega)),
        hexVal_hexChar _ (Nat.mod_lt _ (by omega)), hexVal_hexChar _ (Nat.mod_lt _ (by omega))]
    show consChar (uniChar (((ch.toNat / 4096 % 16 * 16 + ch.toNat / 256 % 16) * 16 +
        ch.toNat / 16 % 16) * 16 + ch.toNat % 16)) (parseStrAux fuel t) =
      consChar ch (parseStrAux fuel t)
    have hn : ((ch.toNat / 4096 % 16 * 16 + ch.toNat / 256 % 16) * 16 +
        ch.toNat / 16 % 16) * 16 + ch.toNat % 16 = ch.toNat := by omega
    rw [hn]
    have hu : uniChar ch.toNat = ch := by
      unfold uniChar
      rw [if_neg (by omega)]
      exact Char.ofNat_toNat ch
    rw [hu]
  · have hesc : escapeChar ch = [ch] := by
      simp [escapeChar, h1, h2, h3, h4, h5, hP]
    rw [hesc]
    simp only [List.cons_append, List.nil_append]
    simp [parseStrAux, h1, h2]

lemma parseStrAux_escBody (s : List Char) : ∀ (fuel : Nat), s.length < fuel →
    ∀ t, parseStrAux fuel (escBody s ++ '"' :: t) = some (s, t) := by
  induction s with
  | nil =>
    intro fuel hf t
    cases fuel with
    | zero => omega
    | succ fuel => simp [escBody, parseStrAux]
  | cons c cs ih =>
    intro fuel hf t
    cases fuel with
    | zero => omega
    | succ fuel =>
      have hstep : escBody (c :: cs) ++ '"' :: t =
          escapeChar c ++ (escBody cs ++ '"' :: t) := by
        simp [escBody]
      rw [hstep, parseStrAux_escapeChar]
      rw [ih fuel (by simp only [List.length_cons] at hf; omega) t]
      rfl

lemma parseTestTask_marshal (v : TestTask) :
    parseTestTask (marshalTestTask v).data = some v := by
  have hm : (marshalTestTask v).data =
      jsonLit1 ++ (intChars v.id ++ (jsonLit2 ++ (escBody v.data.data ++
        ('"' :: jsonRBrace)))) := by
    simp [marshalTestTask, List.append_assoc]
  unfold parseTestTask
  rw [hm, expectChars_append]
  simp only [Option.some_bind]
  rw [show jsonLit2 ++ (escBody v.data.data ++ ('"' :: jsonRBrace)) =
      ',' :: (jsonLit2Tail ++ (escBody v.data.data ++ ('"' :: jsonRBrace))) from rfl]
  rw [parseIntChars_intChars v.id ',' (by decide) _]
  simp only [Option.some_bind]
  rw [show (',' : Char) :: (jsonLit2Tail ++ (escBody v.data.data ++ ('"' :: jsonRBrace))) =
      jsonLit2 ++ (escBody v.data.data ++ ('"' :: jsonRBrace)) from rfl]
  rw [expectChars_append]
  simp only [Option.some_bind]
  rw [parseStrAux_escBody v.data.data _
    (by
      have h := length_le_escBody v.data.data
      simp only [List.length_append]
      omega) jsonRBrace]
  simp only [Option.some_bind]
  rw [show expectChars jsonRBrace jsonRBrace = some [] from rfl]
  simp only [Option.some_bind]
  rfl

/-- C5: the round-trip law of the default JSON transcoder at the payload
type `TestTask`: whenever `Encode` succeeds on a value, `Decode` of the
encoded string succeeds and returns an equal value. -/
theorem default_transcoder_roundtrip (v : TestTask) (s : String)
    (henc : (defaultTranscoder testTaskCodec).Encode v = (s, none)) :
    (defaultTranscoder testTaskCodec).Decode s = (v, none) := by
  have henc' : (marshalTestTask v, (none : Option GoError)) = (s, none) := henc
  injection henc' with hs hn
  subst hs
  have hp := parseTestTask_marshal v
  simp [defaultTranscoder, testTaskCodec, hp]

/-- Witness for C5: the round-trip at a task with a negative id and quote,
backslash, newline and brace characters in the data field. -/
theorem default_transcoder_roundtrip_witness :
    (defaultTranscoder testTaskCodec).Decode
      ((defaultTranscoder testTaskCodec).Encode witnessTask).1 = (witnessTask, none) :=
  default_transcoder_roundtrip witnessTask
    ((defaultTranscoder testTaskCodec).Encode witnessTask).1 rfl
